import Mathlib

/-!
# Verification of the long-capture session engine of `screenshot-mcp`

Shallow embedding of `src/utils/long-screenshot.ts`:

* the scroll-and-capture loop of `captureLongScreenshot` (lines 45-84),
* the platform dispatch of `scrollWindow` (lines 97-111) and the macOS
  actuator `scrollWindowMacOS` (lines 189-212),
* the stitcher `stitchImages` (lines 217-275),
* the overlap resolver `findBestOverlap` (lines 280-333),
* the fingerprint `hashImage` (lines 338-348).

JavaScript numbers are modelled by `ℚ` (exact arithmetic) where fractional
values can arise, by `ℕ`/`ℤ` where the code only ever manipulates integral
values.  `Buffer`s are modelled as `List ℕ` of byte values.
-/

namespace ScreenshotMCP

/-- Structure `ImageBuffer` from `src/types/index.ts` (lines 140-152): raw bytes,
width and height in pixels, and the pixel format tag. -/
structure ImageBuffer where
  data : List ℕ
  width : ℕ
  height : ℕ
  format : String
deriving Repr, DecidableEq

/-! ## The capture loop (lines 45-84)

The loop state tracked by `captureLongScreenshot`: the retained frame
sequence (`screenshots`, represented by the indices of the retained
captures, the seed capture being index 0), the previous fingerprint
(`previousHash`), the unchanged streak (`unchangedCount`), and — added for
specification purposes — the number of scroll-then-capture iterations
executed so far.  Fingerprints are abstracted as natural numbers and the
whole capture history as a function `cap : ℕ → ℕ`, where `cap 0` is the
seed frame's fingerprint and `cap (i+1)` the fingerprint of the frame
captured at iteration `i`. -/
structure LoopState where
  shots : List ℕ
  prev : ℕ
  unchanged : ℕ
  iters : ℕ
deriving Repr, DecidableEq

/-- One execution of the `for` loop at lines 52-82, with `fuel` remaining
iterations (`maxScrolls - i`), `i` the current loop index, and `s` the
loop state.  Mirrors the body: capture, compare fingerprints; on a match
increment `unchangedCount` and break once it reaches 2 (without appending);
on a mismatch reset the streak to 0 and append the frame; then set
`previousHash` to the current fingerprint. -/
def captureLoop (cap : ℕ → ℕ) : ℕ → ℕ → LoopState → LoopState
  | 0, _, s => s
  | fuel + 1, i, s =>
    let cur := cap (i + 1)
    if cur = s.prev then
      if s.unchanged + 1 ≥ 2 then
        { s with unchanged := s.unchanged + 1, iters := s.iters + 1 }
      else
        captureLoop cap fuel (i + 1)
          { s with prev := cur, unchanged := s.unchanged + 1, iters := s.iters + 1 }
    else
      captureLoop cap fuel (i + 1)
        { shots := s.shots ++ [i + 1], prev := cur, unchanged := 0, iters := s.iters + 1 }

/-- The state just before the loop (lines 45-47): `screenshots` holds the
seed capture, `previousHash` its fingerprint, `unchangedCount` is 0. -/
def captureInit (cap : ℕ → ℕ) : LoopState :=
  { shots := [0], prev := cap 0, unchanged := 0, iters := 0 }

/-- The loop of `captureLongScreenshot`, run from the seeded state for up
to `maxScrolls` iterations. -/
def captureRun (cap : ℕ → ℕ) (maxScrolls : ℕ) : LoopState :=
  captureLoop cap maxScrolls 0 (captureInit cap)

/-- The loop invariant of the retained frame sequence (C10): adjacent
retained frames have distinct fingerprints, and the tracked previous
fingerprint equals the fingerprint of the most recently retained frame. -/
def loopInv (cap : ℕ → ℕ) (s : LoopState) : Prop :=
  List.Chain' (fun a b => cap a ≠ cap b) s.shots ∧
  ∃ l, s.shots.getLast? = some l ∧ s.prev = cap l

/-! ## Scroll actuation and the platform dispatch (lines 97-212) -/

/-- The `process.platform` values distinguished by `scrollWindow`
(lines 100-104): Windows-class, macOS-class, anything else. -/
inductive Plat
  | win32
  | darwin
  | other
deriving DecidableEq, Repr

/-- Observable side effects of one session: a frame capture (with its
index), a synthesized Page Down key press (Windows path, line 168), a
synthesized key code 125 press (macOS path, line 199), and the production
of the stitched output (line 88). -/
inductive Ev
  | capture (idx : ℕ)
  | pageDownKey
  | keyCode125
  | stitchOutput
deriving DecidableEq, Repr

/-- Class `ScreenshotError` from `src/types/errors.ts`: a numeric error code
(`ErrorCode.CAPTURE_FAILED = 1004`) plus a message. -/
structure ScreenshotErr where
  code : ℕ
  msg : String
deriving DecidableEq, Repr

/-- The error thrown by `scrollWindow` on an unsupported platform
(lines 105-109). -/
def platUnsupportedErr : ScreenshotErr :=
  { code := 1004, msg := "Long screenshot is not supported on this platform yet" }

/-- Function `scrollWindowMacOS` (lines 189-212): synthesizes key code 125 exactly
`Math.ceil(amount / 100)` times. -/
def scrollWindowMacOS (amount : ℚ) : List Ev :=
  List.replicate (Int.ceil (amount / 100)).toNat Ev.keyCode125

/-- Function `scrollWindow` (lines 97-111): dispatch on `process.platform`.
Windows presses Page Down once, macOS delegates to `scrollWindowMacOS`,
and any other platform throws before injecting any input event. -/
def scrollWindow (plat : Plat) (amount : ℚ) : Except ScreenshotErr (List Ev) :=
  match plat with
  | .win32 => .ok [Ev.pageDownKey]
  | .darwin => .ok (scrollWindowMacOS amount)
  | .other => .error platUnsupportedErr

/-- The session `captureLongScreenshot` (lines 24-92) as a trace of
observable events together with its result.  Each loop iteration scrolls
— the source always passes amount `0`, line 56: "scrollAmount is ignored,
always 1 Page Down" — then captures the next frame; an error from
`scrollWindow` propagates immediately, ending the trace.  On normal loop
exit the stitched output is produced (line 88). -/
def captureLongGo (plat : Plat) (cap : ℕ → ℕ) :
    ℕ → ℕ → LoopState → List Ev → List Ev × Except ScreenshotErr LoopState
  | 0, _, s, tr => (tr ++ [Ev.stitchOutput], .ok s)
  | fuel + 1, i, s, tr =>
    match scrollWindow plat 0 with
    | .error e => (tr, .error e)
    | .ok evs =>
      let tr1 := tr ++ evs ++ [Ev.capture (i + 1)]
      let cur := cap (i + 1)
      if cur = s.prev then
        if s.unchanged + 1 ≥ 2 then
          (tr1 ++ [Ev.stitchOutput],
            .ok { s with unchanged := s.unchanged + 1, iters := s.iters + 1 })
        else
          captureLongGo plat cap fuel (i + 1)
            { s with prev := cur, unchanged := s.unchanged + 1, iters := s.iters + 1 } tr1
      else
        captureLongGo plat cap fuel (i + 1)
          { shots := s.shots ++ [i + 1], prev := cur, unchanged := 0,
            iters := s.iters + 1 } tr1

/-- A full session run: the seed frame is captured first (line 38), then
the loop runs for up to `maxScrolls` iterations.  `scrollAmountOpt` models
`options.scrollAmount` (`LongScreenshotOptions`, line 16); the source
never reads it, hence the parameter is dead — faithfully to line 56. -/
def captureLongRun (plat : Plat) (scrollAmountOpt : Option ℚ) (cap : ℕ → ℕ)
    (maxScrolls : ℕ) : List Ev × Except ScreenshotErr LoopState :=
  captureLongGo plat cap maxScrolls 0 (captureInit cap) [Ev.capture 0]

/-- Recognizer for capture events. -/
def isCaptureEv : Ev → Bool
  | .capture _ => true
  | _ => false

/-! ## The fingerprint `hashImage` (lines 338-348) -/

/-- One byte rendered as JavaScript's `b.toString(16).padStart(2, '0')`:
lowercase hexadecimal, left-padded with zeros to length 2. -/
def byteHex (b : ℕ) : String :=
  let s := String.mk (Nat.toDigits 16 b)
  if s.length < 2 then String.mk (List.replicate (2 - s.length) '0') ++ s else s

/-- The sampling loop of `hashImage` (lines 343-345), with explicit fuel:
`for (let i = 0; i < image.data.length; i += step) hash += hex(data[i])`.
Returns `none` when the fuel is exhausted while the loop guard still
holds, i.e. the JavaScript loop has not terminated within `fuel`
iterations. -/
def hashLoop (data : List ℕ) (step : ℕ) : ℕ → ℕ → String → Option String
  | 0, i, acc => if i < data.length then none else some acc
  | fuel + 1, i, acc =>
    if i < data.length then
      hashLoop data step fuel (i + step) (acc ++ byteHex (data.getD i 0))
    else
      some acc

/-- Function `hashImage` (lines 338-348): `samples = 100`,
`step = Math.floor(image.data.length / samples)`, then the sampling loop
from index 0 with the empty accumulator.  The fuel bounds how many
iterations we are willing to unfold; the JavaScript original has no such
bound. -/
def hashImageFuel (image : ImageBuffer) (fuel : ℕ) : Option String :=
  hashLoop image.data (image.data.length / 100) fuel 0 ""

/-- A 100-byte all-7 frame, used as a concrete witness input. -/
def img100 : ImageBuffer :=
  { data := List.replicate 100 7, width := 5, height := 5, format := "RGBA" }

/-- A 5-byte all-7 frame, used as a concrete witness input. -/
def img5 : ImageBuffer :=
  { data := List.replicate 5 7, width := 1, height := 1, format := "RGBA" }

/-! ## The stitcher `stitchImages` (lines 217-275) -/

/-- The error thrown by `stitchImages` on an empty frame list
(lines 218-224). -/
def noImagesErr : ScreenshotErr := { code := 1004, msg := "No images to stitch" }

/-- Node's `ERR_OUT_OF_RANGE`, thrown by `Buffer.alloc` on a negative
size and by `Buffer.copy` on a negative `targetStart` or an out-of-bounds
`sourceStart`. -/
def bufRangeErr : ScreenshotErr := { code := 0, msg := "ERR_OUT_OF_RANGE" }

/-- Node's `src.copy(dst, destStart, srcStart, srcEnd)` for in-range
offsets: copies `min (srcEnd - srcStart) (src.length - srcStart)
(dst.length - destStart)` bytes (clamped at 0) of `src` from `srcStart`
over `dst` at `destStart`; the destination keeps its length. -/
def bufCopy (src dst : List ℕ) (destStart srcStart srcEnd : ℕ) : List ℕ :=
  let n := min (srcEnd - srcStart) (min (src.length - srcStart) (dst.length - destStart))
  dst.take destStart ++ (src.drop srcStart).take n ++ dst.drop (destStart + n)

/-- The copy loop of `stitchImages` (lines 255-267).  For each subsequent
image and its overlap: `currentY -= overlap`, then copy bytes
`[overlap*width*4, overlap*width*4 + (height-overlap)*width*4)` of the
image to the output at `currentY*width*4`, then
`currentY += height - overlap`.  The cursor is an integer: in JavaScript
`currentY` can go negative, in which case `Buffer.copy` throws
`ERR_OUT_OF_RANGE` (as it does for `sourceStart` beyond the source
buffer), modelled by the two guards. -/
def stitchLoop (width : ℕ) : List (ImageBuffer × ℕ) → ℤ → List ℕ →
    Except ScreenshotErr (ℤ × List ℕ)
  | [], y, out => .ok (y, out)
  | (img, o) :: rest, y, out =>
    let y1 := y - (o : ℤ)
    let srcStart := o * width * 4
    let destStart := y1 * ((width : ℤ) * 4)
    let copyLen := ((img.height : ℤ) - (o : ℤ)) * ((width : ℤ) * 4)
    if destStart < 0 then .error bufRangeErr
    else if (srcStart : ℤ) > (img.data.length : ℤ) then .error bufRangeErr
    else
      stitchLoop width rest (y1 + ((img.height : ℤ) - (o : ℤ)))
        (bufCopy img.data out destStart.toNat srcStart ((srcStart : ℤ) + copyLen).toNat)

/-- Function `stitchImages` (lines 217-275), with the resolved overlap list passed
explicitly — the source computes it at lines 233-238 with
`findBestOverlap`, and the claims quantify over the frame list together
with its resolved overlap list.  Empty list: throws (lines 218-224);
single frame: returned unchanged (lines 226-228).  Otherwise: total
height `images[0].height + Σ (images[i+1].height - overlaps[i])`
(lines 241-244), allocation of `width * totalHeight * 4` zero bytes
(line 249, `Buffer.alloc` throws on a negative size), verbatim copy of
the first frame at offset 0 (line 252), then the copy loop. -/
def stitchWithOverlaps (images : List ImageBuffer) (overlaps : List ℕ) :
    Except ScreenshotErr ImageBuffer :=
  match images with
  | [] => .error noImagesErr
  | [img] => .ok img
  | img0 :: restImgs =>
    let width := img0.width
    let totalHeight : ℤ := (restImgs.zip overlaps).foldl
      (fun acc p => acc + ((p.1.height : ℤ) - (p.2 : ℤ))) (img0.height : ℤ)
    if (width : ℤ) * totalHeight * 4 < 0 then .error bufRangeErr
    else
      let outInit : List ℕ := List.replicate ((width : ℤ) * totalHeight * 4).toNat 0
      let out0 := bufCopy img0.data outInit 0 0 img0.data.length
      match stitchLoop width (restImgs.zip overlaps) (img0.height : ℤ) out0 with
      | .error e => .error e
      | .ok yOut =>
        .ok { data := yOut.2, width := width, height := totalHeight.toNat,
              format := "RGBA" }

/-- A 1×2 frame whose rows read 1, 2 (4 bytes per row). -/
def frameA : ImageBuffer :=
  { data := [1, 1, 1, 1, 2, 2, 2, 2], width := 1, height := 2, format := "RGBA" }

/-- A 1×2 frame whose rows read 2, 3: its top row duplicates `frameA`'s
bottom row, i.e. the true overlap between `frameA` and `frameB` is 1. -/
def frameB : ImageBuffer :=
  { data := [2, 2, 2, 2, 3, 3, 3, 3], width := 1, height := 2, format := "RGBA" }

/-- What `stitchImages [frameA, frameB]` with resolved overlap 1 actually
produces: `frameB`'s non-overlap row lands at output row 1, overwriting
`frameA`'s bottom row, and output row 2 is never written (zeros). -/
def stitchedAB : ImageBuffer :=
  { data := [1, 1, 1, 1, 3, 3, 3, 3, 0, 0, 0, 0], width := 1, height := 3,
    format := "RGBA" }

/-! ## The overlap resolver `findBestOverlap` (lines 280-333)

JavaScript numbers are modelled by `ℚ`; `Math.sqrt` (line 314) returns an
irrational double, so the scoring is parametrized by an arbitrary
`sqrtF : ℚ → ℚ` standing for it — every theorem below holds for all
`sqrtF`, because the claims under verification concern the candidate
range, the fallback value and the byte indices read, none of which depend
on the score values. -/

/-- Lower bound of the candidate range (line 282):
`Math.max(20, maxOverlap / 3)`. -/
def minOverlapQ (hint : ℚ) : ℚ := max 20 (hint / 3)

/-- Upper bound of the candidate range (line 283):
`Math.min(maxOverlap * 3, Math.min(img1.height, img2.height) / 2)`. -/
def maxSearchOverlapQ (h1 h2 : ℕ) (hint : ℚ) : ℚ :=
  min (hint * 3) (min (h1 : ℚ) (h2 : ℚ) / 2)

/-- Number of iterations of `for (o = minO; o <= maxO; o += 5)`
(line 290): the values visited are `minO + 5k` for every `k` with
`minO + 5k ≤ maxO`. -/
def candidateCount (minO maxO : ℚ) : ℕ :=
  if minO ≤ maxO then (Int.floor ((maxO - minO) / 5)).toNat + 1 else 0

/-- The candidate overlaps visited by the loop at line 290, ascending. -/
def candidates (minO maxO : ℚ) : List ℚ :=
  (List.range (candidateCount minO maxO)).map (fun k => minO + 5 * (k : ℚ))

/-- Buffer access `img.data[idx]` for a rational index: defined (as the byte value) when
the index is integral and in range; JavaScript yields `undefined`
otherwise, modelled as 0 — the scoring reads proved in range by C8 never
take that branch. -/
def readByte (img : ImageBuffer) (idx : ℚ) : ℤ :=
  if idx.den = 1 ∧ 0 ≤ idx.num ∧ idx.num < (img.data.length : ℤ) then
    (img.data.getD idx.num.toNat 0 : ℤ)
  else 0

/-- Sampled columns (line 305): `x = 0, 5, 10, …` while `x < width`. -/
def sampleXs (width : ℕ) : List ℕ :=
  (List.range ((width + 4) / 5)).map (fun k => 5 * k)

/-- Sampled band rows (lines 297-300): `y` from
`startY = Math.floor(overlap * 0.2)` while `y < endY` with
`endY = Math.floor(overlap * 0.8)`; only meaningful for `o ≥ 0`, which
holds for every candidate. -/
def sampleYs (o : ℚ) : List ℕ :=
  (List.range ((Int.floor (o * (4 / 5))).toNat - (Int.floor (o * (1 / 5))).toNat)).map
    (fun k => (Int.floor (o * (1 / 5))).toNat + k)

/-- Byte index into the prior frame (lines 301, 306):
`((img1.height - overlap + y) * width + x) * 4`. -/
def idx1Q (h1 width : ℕ) (o : ℚ) (y x : ℕ) : ℚ :=
  (((h1 : ℚ) - o + (y : ℚ)) * (width : ℚ) + (x : ℚ)) * 4

/-- Byte index into the next frame (lines 302, 307): `(y * width + x) * 4`. -/
def idx2Q (width : ℕ) (y x : ℕ) : ℚ :=
  ((y : ℚ) * (width : ℚ) + (x : ℚ)) * 4

/-- Scoring of one candidate overlap (lines 293-317): accumulated sum of
`sqrt(dr² + dg² + db²)` over the sampled pixels, together with the sample
count. -/
def candidateScore (sqrtF : ℚ → ℚ) (img1 img2 : ImageBuffer) (o : ℚ) : ℚ × ℕ :=
  (sampleYs o).foldl (fun acc y =>
    (sampleXs img1.width).foldl (fun acc2 x =>
      let i1 := idx1Q img1.height img1.width o y x
      let i2 := idx2Q img1.width y x
      let dr := readByte img1 i1 - readByte img2 i2
      let dg := readByte img1 (i1 + 1) - readByte img2 (i2 + 1)
      let db := readByte img1 (i1 + 2) - readByte img2 (i2 + 2)
      (acc2.1 + sqrtF (((dr * dr + dg * dg + db * db : ℤ) : ℚ)), acc2.2 + 1)) acc)
    (0, 0)

/-- Comparison `score < bestScore` (line 323), where `bestScore` starts as `Infinity`
(line 286), modelled by `none`. -/
def scoreLt (s : ℚ) (best : Option ℚ) : Bool :=
  match best with
  | none => true
  | some b => decide (s < b)

/-- Function `findBestOverlap` (lines 280-333): scan the candidate range; skip a
candidate exceeding either height (line 291); for a candidate with at
least one sample, compare its average score against the best so far
(strict less, so the first of exact ties wins) and keep the better; if no
candidate ever updates the best, return `maxOverlap` (the hint,
line 285) unchanged. -/
def findBestOverlap (sqrtF : ℚ → ℚ) (img1 img2 : ImageBuffer) (maxOverlap : ℚ) : ℚ :=
  (((candidates (minOverlapQ maxOverlap)
      (maxSearchOverlapQ img1.height img2.height maxOverlap)).foldl
    (fun best o =>
      if (img1.height : ℚ) < o ∨ (img2.height : ℚ) < o then best
      else
        let sc := candidateScore sqrtF img1 img2 o
        if 0 < sc.2 then
          let avg := sc.1 / (sc.2 : ℚ)
          if scoreLt avg best.2 then (o, some avg) else best
        else best)
    (maxOverlap, (none : Option ℚ)))).1

/-- The three channel bytes read at a pixel (lines 310-312): the index
and its two successors. -/
def chan3 (idx : ℚ) : List ℚ := [idx, idx + 1, idx + 2]

/-- All byte indices read from the prior frame while scoring candidate
`o` (lines 300-312). -/
def candReads1 (h1 width : ℕ) (o : ℚ) : List ℚ :=
  (sampleYs o).flatMap (fun y => (sampleXs width).flatMap (fun x =>
    chan3 (idx1Q h1 width o y x)))

/-- All byte indices read from the next frame while scoring candidate `o`. -/
def candReads2 (width : ℕ) (o : ℚ) : List ℚ :=
  (sampleYs o).flatMap (fun y => (sampleXs width).flatMap (fun x =>
    chan3 (idx2Q width y x)))

/-- All prior-frame reads of the whole search: candidates not skipped by
the guard at line 291, each contributing its scoring reads. -/
def searchReads1 (img1 img2 : ImageBuffer) (hint : ℚ) : List ℚ :=
  ((candidates (minOverlapQ hint)
      (maxSearchOverlapQ img1.height img2.height hint)).filter
    (fun o => decide (o ≤ (img1.height : ℚ) ∧ o ≤ (img2.height : ℚ)))).flatMap
    (candReads1 img1.height img1.width)

/-- All next-frame reads of the whole search. -/
def searchReads2 (img1 img2 : ImageBuffer) (hint : ℚ) : List ℚ :=
  ((candidates (minOverlapQ hint)
      (maxSearchOverlapQ img1.height img2.height hint)).filter
    (fun o => decide (o ≤ (img1.height : ℚ) ∧ o ≤ (img2.height : ℚ)))).flatMap
    (candReads2 img1.width)

/-- A stand-in for `Math.sqrt` used in concrete counterexamples; the
results below hold for every such function. -/
def sqrtZero : ℚ → ℚ := fun _ => 0

/-- A 1×30 frame (120 bytes), shorter than twice the default hint. -/
def frame30 : ImageBuffer :=
  { data := List.replicate 120 0, width := 1, height := 30, format := "RGBA" }

/-- A 1×40 frame (160 bytes), the boundary scenario of C8. -/
def frame40 : ImageBuffer :=
  { data := List.replicate 160 0, width := 1, height := 40, format := "RGBA" }

/-! ## Verified properties -/

/-- While every captured fingerprint differs from the previous one, each
iteration of the loop takes the changed branch: it appends the new frame
index, resets the streak, and continues.  After `a` such iterations the
loop continues from index `i + a` with the frames `i+1, …, i+a` appended. -/
lemma captureLoop_changed_run (cap : ℕ → ℕ) :
    ∀ a b i s, s.prev = cap i → s.unchanged = 0 →
      (∀ j, i ≤ j → j < i + a → cap (j + 1) ≠ cap j) →
      captureLoop cap (a + b) i s =
        captureLoop cap b (i + a)
          { shots := s.shots ++ List.range' (i + 1) a,
            prev := cap (i + a), unchanged := 0, iters := s.iters + a } := by
  intro a
  induction a with
  | zero =>
    intro b i s hprev hunch _
    cases s with
    | mk sh p u t =>
      simp only [LoopState.prev] at hprev
      simp only [LoopState.unchanged] at hunch
      simp [hprev, hunch]
  | succ a ih =>
    intro b i s hprev hunch hne
    have hstep : cap (i + 1) ≠ cap i := hne i le_rfl (by omega)
    have h1 : a + 1 + b = (a + b) + 1 := by omega
    rw [h1]
    show (let cur := cap (i + 1);
      if cur = s.prev then
        if s.unchanged + 1 ≥ 2 then
          { s with unchanged := s.unchanged + 1, iters := s.iters + 1 }
        else
          captureLoop cap (a + b) (i + 1)
            { s with prev := cur, unchanged := s.unchanged + 1, iters := s.iters + 1 }
      else
        captureLoop cap (a + b) (i + 1)
          { shots := s.shots ++ [i + 1], prev := cur, unchanged := 0,
            iters := s.iters + 1 }) = _
    rw [hprev]
    simp only [if_neg hstep]
    rw [ih b (i + 1)
      { shots := s.shots ++ [i + 1], prev := cap (i + 1), unchanged := 0,
        iters := s.iters + 1 } rfl rfl (fun j hj1 hj2 => hne j (by omega) (by omega))]
    have h2 : i + 1 + a = i + (a + 1) := by omega
    have h3 : s.iters + 1 + a = s.iters + (a + 1) := by omega
    have h4 : s.shots ++ [i + 1] ++ List.range' (i + 1 + 1) a =
        s.shots ++ List.range' (i + 1) (a + 1) := by
      rw [List.range'_succ]
      simp
    rw [h2, h3, h4]

/-- C5: if no fingerprint ever repeats, the loop exhausts all `maxScrolls`
iterations, appending every captured frame. -/
theorem C5_all_changed_runs_to_maxScrolls (cap : ℕ → ℕ) (N : ℕ) (hpos : 0 < N)
    (hch : ∀ i < N, cap (i + 1) ≠ cap i) :
    captureRun cap N =
      { shots := List.range (N + 1), prev := cap N, unchanged := 0, iters := N } ∧
    (captureRun cap N).shots.length = N + 1 ∧
    (captureRun cap N).shots.head? = some 0 := by
  have hmain : captureRun cap N =
      { shots := List.range (N + 1), prev := cap N, unchanged := 0, iters := N } := by
    unfold captureRun
    have h0 : N = N + 0 := rfl
    rw [h0, captureLoop_changed_run cap N 0 0 (captureInit cap) rfl rfl
      (fun j hj1 hj2 => hch j (by omega))]
    simp only [captureInit, captureLoop]
    have hsh : (0 :: List.range' 1 N) = List.range (N + 1) := by
      rw [List.range_eq_range', List.range'_succ]
    simp [hsh]
  refine ⟨hmain, ?_, ?_⟩
  · rw [hmain]
    simp
  · rw [hmain]
    simp only [List.range_succ_eq_map, List.head?_cons]

/-- C5 witness at `cap = fun n => n`, `N = 3`. -/
theorem C5_witness :
    (0 < 3 ∧ ∀ i < 3, (fun n => n) (i + 1) ≠ (fun n => n) i) ∧
    captureRun (fun n => n) 3 =
      { shots := List.range 4, prev := 3, unchanged := 0, iters := 3 } :=
  ⟨⟨by decide, by decide⟩,
    (C5_all_changed_runs_to_maxScrolls (fun n => n) 3 (by decide) (by decide)).1⟩

/-- From a state with empty streak whose previous fingerprint is `cap i`,
if the next two captures are unchanged the loop stops right there: the
streak reaches 2, the iteration count grows by exactly 2, and the retained
sequence does not grow. -/
lemma captureLoop_two_unchanged (cap : ℕ → ℕ) (r i : ℕ) (s : LoopState)
    (hprev : s.prev = cap i) (hunch : s.unchanged = 0)
    (h1 : cap (i + 1) = cap i) (h2 : cap (i + 1 + 1) = cap (i + 1)) :
    captureLoop cap (r + 1 + 1) i s =
      { s with unchanged := 2, iters := s.iters + 2 } := by
  cases s with
  | mk sh p u t =>
    simp only [LoopState.prev] at hprev
    simp only [LoopState.unchanged] at hunch
    subst hprev
    subst hunch
    norm_num [captureLoop, h1, h2]

/-- C4: if the fingerprints change at every iteration before `m` and stay
unchanged from iteration `m` on (and `maxScrolls` leaves room), the loop
stops after exactly `m + 2` iterations — i.e. after exactly 2 consecutive
unchanged detections, neither of the two unchanged frames being appended. -/
theorem C4_stops_after_two_unchanged (cap : ℕ → ℕ) (maxScrolls m : ℕ)
    (hroom : m + 2 ≤ maxScrolls)
    (hch : ∀ i < m, cap (i + 1) ≠ cap i)
    (hst : ∀ i, m ≤ i → cap (i + 1) = cap i) :
    captureRun cap maxScrolls =
      { shots := List.range (m + 1), prev := cap m, unchanged := 2, iters := m + 2 } := by
  obtain ⟨r, hr⟩ : ∃ r, maxScrolls = m + (r + 1 + 1) := ⟨maxScrolls - m - 2, by omega⟩
  subst hr
  unfold captureRun
  rw [captureLoop_changed_run cap m (r + 1 + 1) 0 (captureInit cap) rfl rfl
    (fun j hj1 hj2 => hch j (by omega))]
  simp only [captureInit, Nat.zero_add]
  rw [captureLoop_two_unchanged cap r m _ rfl rfl (hst m le_rfl) (hst (m + 1) (by omega))]
  have hsh : (0 :: List.range' 1 m) = List.range (m + 1) := by
    rw [List.range_eq_range', List.range'_succ]
  simp [hsh]

/-- C4 witness at the constant fingerprint stream, `m = 0`, `maxScrolls = 4`. -/
theorem C4_witness :
    (0 + 2 ≤ 4 ∧ ∀ i, 0 ≤ i → (fun _ => 5) (i + 1) = (fun _ => 5) i) ∧
    captureRun (fun _ => 5) 4 =
      { shots := List.range 1, prev := 5, unchanged := 2, iters := 2 } :=
  ⟨⟨by omega, fun i _ => rfl⟩,
    C4_stops_after_two_unchanged (fun _ => 5) 4 0 (by omega)
      (fun i h => absurd h (by omega)) (fun i _ => rfl)⟩

/-- Invariant `loopInv` is preserved by every iteration of the capture loop. -/
lemma captureLoop_inv (cap : ℕ → ℕ) :
    ∀ fuel i s, loopInv cap s → loopInv cap (captureLoop cap fuel i s) := by
  intro fuel
  induction fuel with
  | zero => intro i s h; exact h
  | succ fuel ih =>
    intro i s h
    show loopInv cap
      (let cur := cap (i + 1);
        if cur = s.prev then
          if s.unchanged + 1 ≥ 2 then
            { s with unchanged := s.unchanged + 1, iters := s.iters + 1 }
          else
            captureLoop cap fuel (i + 1)
              { s with prev := cur, unchanged := s.unchanged + 1, iters := s.iters + 1 }
        else
          captureLoop cap fuel (i + 1)
            { shots := s.shots ++ [i + 1], prev := cur, unchanged := 0,
              iters := s.iters + 1 })
    by_cases heq : cap (i + 1) = s.prev
    · simp only [if_pos heq]
      by_cases h2 : s.unchanged + 1 ≥ 2
      · simp only [if_pos h2]
        obtain ⟨hchain, l, hl, hp⟩ := h
        exact ⟨hchain, l, hl, hp⟩
      · simp only [if_neg h2]
        refine ih (i + 1) _ ?_
        obtain ⟨hchain, l, hl, hp⟩ := h
        exact ⟨hchain, l, hl, heq.trans hp⟩
    · simp only [if_neg heq]
      refine ih (i + 1) _ ?_
      obtain ⟨hchain, l, hl, hp⟩ := h
      refine ⟨?_, i + 1, ?_, rfl⟩
      · rw [List.chain'_append]
        refine ⟨hchain, List.chain'_singleton _, ?_⟩
        intro x hx y hy
        simp only [List.head?_cons, Option.mem_def, Option.some.injEq] at hy
        rw [hl] at hx
        simp only [Option.mem_def, Option.some.injEq] at hx
        subst hx
        subst hy
        rw [← hp]
        exact fun hc => heq hc.symm
      · exact List.getLast?_concat _

/-- C10: the seeded initial state satisfies the invariant, and the
invariant is preserved by the whole loop: at every point the retained
sequence has pairwise-distinct adjacent fingerprints and the tracked
previous fingerprint is that of the last retained frame. -/
theorem C10_retained_adjacent_distinct (cap : ℕ → ℕ) (fuel i : ℕ) (s : LoopState)
    (h : loopInv cap s) :
    loopInv cap (captureInit cap) ∧ loopInv cap (captureLoop cap fuel i s) :=
  ⟨⟨List.chain'_singleton _, 0, rfl, rfl⟩, captureLoop_inv cap fuel i s h⟩

/-- C10 witness: the invariant holds after running the loop two steps from
the seeded state on the identity fingerprint stream. -/
theorem C10_witness :
    loopInv (fun n => n) (captureInit (fun n => n)) ∧
    loopInv (fun n => n) (captureLoop (fun n => n) 2 0 (captureInit (fun n => n))) :=
  C10_retained_adjacent_distinct (fun n => n) 2 0 (captureInit (fun n => n))
    ⟨List.chain'_singleton _, 0, rfl, rfl⟩

/-- C6: on a platform that is neither Windows-class nor macOS-class, the
session fails with the platform-unsupported error at the first scroll
attempt: the trace holds exactly the seed capture — no second capture, no
injected key event, no stitched output — and the result is the error. -/
theorem C6_unsupported_platform_fails_at_first_scroll (amtOpt : Option ℚ)
    (cap : ℕ → ℕ) (maxScrolls : ℕ) (h : 1 ≤ maxScrolls) :
    captureLongRun .other amtOpt cap maxScrolls =
      ([Ev.capture 0], .error platUnsupportedErr) ∧
    ((captureLongRun .other amtOpt cap maxScrolls).1.filter isCaptureEv).length = 1 ∧
    Ev.pageDownKey ∉ (captureLongRun .other amtOpt cap maxScrolls).1 ∧
    Ev.keyCode125 ∉ (captureLongRun .other amtOpt cap maxScrolls).1 ∧
    Ev.stitchOutput ∉ (captureLongRun .other amtOpt cap maxScrolls).1 := by
  obtain ⟨k, rfl⟩ : ∃ k, maxScrolls = k + 1 := ⟨maxScrolls - 1, by omega⟩
  refine ⟨rfl, ?_, ?_, ?_, ?_⟩ <;> simp [captureLongRun, captureLongGo, scrollWindow, isCaptureEv]

/-- C6 witness at `maxScrolls = 20` (the default), no configured amount. -/
theorem C6_witness :
    1 ≤ 20 ∧
    captureLongRun .other none (fun n => n) 20 =
      ([Ev.capture 0], .error platUnsupportedErr) :=
  ⟨by omega,
    (C6_unsupported_platform_fails_at_first_scroll none (fun n => n) 20 (by omega)).1⟩

/-- On the macOS path the trace never gains a key code 125 event: every
scroll is invoked with amount 0, and `ceil (0 / 100) = 0`. -/
lemma captureLongGo_darwin_no_keys (cap : ℕ → ℕ) :
    ∀ fuel i s tr, ((captureLongGo .darwin cap fuel i s tr).1.count Ev.keyCode125) =
      tr.count Ev.keyCode125 := by
  intro fuel
  induction fuel with
  | zero =>
    intro i s tr
    simp [captureLongGo]
  | succ fuel ih =>
    intro i s tr
    have hmac : scrollWindowMacOS 0 = [] := by
      simp [scrollWindowMacOS]
    simp only [captureLongGo, scrollWindow, hmac]
    by_cases heq : cap (i + 1) = s.prev
    · by_cases h2 : s.unchanged + 1 ≥ 2
      · simp [heq, h2, List.count_append]
      · rw [if_pos heq, if_neg h2, ih]
        simp [List.count_append]
    · rw [if_neg heq, ih]
      simp [List.count_append]

/-- C7 (amended): `scrollWindowMacOS` does translate its `amount`
argument into `ceil (amount / 100)` synthesized key events, but the
session always invokes the scroll with amount 0 — the configured
`scrollAmount` is never read — so every macOS session issues zero key
events per gesture, whatever the configuration. -/
theorem C7_amended_configured_amount_ignored (q : ℚ) (amtOpt : Option ℚ)
    (cap : ℕ → ℕ) (maxScrolls : ℕ) :
    (scrollWindowMacOS q).length = (Int.ceil (q / 100)).toNat ∧
    (captureLongRun .darwin amtOpt cap maxScrolls).1.count Ev.keyCode125 = 0 := by
  constructor
  · simp [scrollWindowMacOS]
  · rw [captureLongRun, captureLongGo_darwin_no_keys]
    simp

/-- C7 counterexample: in a macOS session configured with
`scrollAmount = 250` and a single scroll gesture, the claim predicts
`ceil (250 / 100) = 3` key events for that gesture; the code issues 0. -/
theorem C7_counterexample :
    (captureLongRun .darwin (some 250) (fun n => n) 1).1.count Ev.keyCode125 = 0 ∧
    (Int.ceil ((250 : ℚ) / 100)).toNat = 3 ∧ (0 : ℕ) ≠ 3 := by
  refine ⟨?_, ?_, by omega⟩
  · rw [captureLongRun, captureLongGo_darwin_no_keys]
    simp
  · have h3 : (Int.ceil ((250 : ℚ) / 100)) = 3 := by
      rw [Int.ceil_eq_iff] <;> norm_num
    rw [h3]
    rfl

/-- With a positive step the loop index strictly advances, so the loop
exits within `fuel` iterations once `fuel * step` covers the buffer. -/
lemma hashLoop_terminates (data : List ℕ) (step : ℕ) (hstep : 1 ≤ step) :
    ∀ fuel i acc, data.length ≤ i + fuel * step →
      ∃ r, hashLoop data step fuel i acc = some r := by
  intro fuel
  induction fuel with
  | zero =>
    intro i acc hle
    simp only [Nat.zero_mul, Nat.add_zero] at hle
    exact ⟨acc, by simp [hashLoop, Nat.not_lt.mpr hle]⟩
  | succ fuel ih =>
    intro i acc hle
    by_cases hi : i < data.length
    · have := ih (i + step) (acc ++ byteHex (data.getD i 0))
        (by have : (fuel + 1) * step = fuel * step + step := by ring
            omega)
      simpa [hashLoop, hi] using this
    · exact ⟨acc, by simp [hashLoop, hi]⟩

/-- With step 0 the loop index never advances, so the loop never exits as
long as the buffer is non-empty, whatever the fuel. -/
lemma hashLoop_stuck (data : List ℕ) (hlen : 0 < data.length) :
    ∀ fuel i acc, i < data.length → hashLoop data 0 fuel i acc = none := by
  intro fuel
  induction fuel with
  | zero =>
    intro i acc hi
    simp [hashLoop, hi]
  | succ fuel ih =>
    intro i acc hi
    simp only [hashLoop, if_pos hi, Nat.add_zero]
    exact ih i _ hi

/-- C9: `hashImage` terminates exactly on buffers of length 0 or ≥ 100.
For length 0 the guard fails at once and for length ≥ 100 the stride
`⌊length / 100⌋ ≥ 1` advances the index, so the loop finishes within
`length` iterations; for a non-empty buffer shorter than 100 bytes the
stride is 0, the index never advances, and no amount of fuel makes the
loop finish. -/
theorem C9_hashImage_termination (image : ImageBuffer) (fuel : ℕ) :
    (image.data.length = 0 ∨ 100 ≤ image.data.length →
      ∃ r, hashImageFuel image image.data.length = some r) ∧
    (0 < image.data.length → image.data.length < 100 →
      hashImageFuel image fuel = none) := by
  constructor
  · intro h
    rcases h with h0 | h100
    · exact ⟨"", by simp [hashImageFuel, hashLoop, h0]⟩
    · have hstep : 1 ≤ image.data.length / 100 := by omega
      refine hashLoop_terminates image.data _ hstep image.data.length 0 "" ?_
      calc image.data.length = image.data.length * 1 := by ring
        _ ≤ image.data.length * (image.data.length / 100) :=
            Nat.mul_le_mul_left _ hstep
        _ = 0 + image.data.length * (image.data.length / 100) := by ring
  · intro hpos hlt
    have hstep : image.data.length / 100 = 0 := by omega
    unfold hashImageFuel
    rw [hstep]
    exact hashLoop_stuck image.data hpos fuel 0 "" hpos

/-- C9 witness: a 100-byte buffer hashes to a result within 100
iterations; a 5-byte buffer never finishes, even with 1000 iterations of
fuel. -/
theorem C9_witness :
    (img100.data.length = 0 ∨ 100 ≤ img100.data.length) ∧
    (∃ r, hashImageFuel img100 img100.data.length = some r) ∧
    (0 < img5.data.length ∧ img5.data.length < 100) ∧
    hashImageFuel img5 1000 = none := by
  refine ⟨by decide, ?_, by decide, ?_⟩
  · exact (C9_hashImage_termination img100 0).1 (by decide)
  · exact (C9_hashImage_termination img5 1000).2 (by decide) (by decide)

/-- C1 (the code contradicts it): stitching `frameA` and `frameB` with
resolved overlap 1.  The claim predicts the output `frameA` verbatim
followed by `frameB`'s rows `[1, 2)` — rows 1, 2, 3 — with the copied
rows exactly filling the buffer.  The code instead pre-decrements the
cursor before using it as the destination: `frameB`'s row 1 overwrites
`frameA`'s row 1, the trailing row of the allocated buffer stays
zero-filled, and the final cursor is 2, not the total height 3. -/
theorem C1_stitch_loses_overlap_band :
    stitchWithOverlaps [frameA, frameB] [1] = .ok stitchedAB ∧
    stitchedAB.data ≠ frameA.data ++ frameB.data.drop (1 * frameA.width * 4) ∧
    stitchLoop frameA.width [(frameB, 1)] (frameA.height : ℤ)
      (bufCopy frameA.data (List.replicate 12 0) 0 0 frameA.data.length) =
      .ok (2, stitchedAB.data) ∧
    (2 : ℤ) ≠ (stitchedAB.height : ℤ) := by
  refine ⟨rfl, by decide, rfl, by decide⟩

/-- Copying with `Buffer.copy` preserves the length of the destination. -/
lemma bufCopy_length (src dst : List ℕ) (a b c : ℕ) :
    (bufCopy src dst a b c).length = dst.length := by
  simp [bufCopy]
  omega

/-- The stitch copy loop preserves the length of the output buffer. -/
lemma stitchLoop_length (width : ℕ) :
    ∀ pairs (y : ℤ) out res, stitchLoop width pairs y out = .ok res →
      res.2.length = out.length := by
  intro pairs
  induction pairs with
  | nil =>
    intro y out res h
    simp only [stitchLoop, Except.ok.injEq] at h
    rw [← h]
  | cons p rest ih =>
    intro y out res h
    obtain ⟨img, o⟩ := p
    simp only [stitchLoop] at h
    split_ifs at h
    exact (ih _ _ _ h).trans (bufCopy_length _ _ _ _ _)

/-- Shifting the seed of an additive fold. -/
lemma foldl_add_shift {α : Type} (f : α → ℤ) :
    ∀ (l : List α) (c : ℤ),
      l.foldl (fun a p => a + f p) c = c + l.foldl (fun a p => a + f p) 0 := by
  intro l
  induction l with
  | nil => intro c; simp
  | cons x l ih =>
    intro c
    simp only [List.foldl_cons]
    rw [ih (c + f x), ih (0 + f x)]
    ring

/-- An additive fold of pointwise non-negative terms is non-negative. -/
lemma foldl_add_nonneg {α : Type} (f : α → ℤ) (l : List α)
    (h : ∀ p ∈ l, 0 ≤ f p) : 0 ≤ l.foldl (fun a p => a + f p) 0 := by
  induction l with
  | nil => simp
  | cons x l ih =>
    simp only [List.foldl_cons]
    rw [foldl_add_shift]
    have hx := h x (by simp)
    have hl := ih (fun p hp => h p (by simp [hp]))
    omega

/-- C2: whenever the stitcher returns an output, its `height` equals
`frames[0].height + Σ (frames[i+1].height - overlaps[i])`, its `width`
equals `frames[0].width`, and its byte buffer holds exactly
`width * height * 4` bytes. -/
theorem C2_stitched_dimensions (images : List ImageBuffer) (overlaps : List ℕ)
    (out : ImageBuffer) (hne : images ≠ [])
    (hlen : overlaps.length = images.length - 1)
    (hwf : ∀ img ∈ images, img.data.length = img.width * img.height * 4)
    (hov : ∀ p ∈ images.tail.zip overlaps, p.2 ≤ p.1.height)
    (hok : stitchWithOverlaps images overlaps = .ok out) :
    out.width = (images.head hne).width ∧
    (out.height : ℤ) = ((images.head hne).height : ℤ) +
      (images.tail.zip overlaps).foldl
        (fun acc p => acc + ((p.1.height : ℤ) - (p.2 : ℤ))) 0 ∧
    out.data.length = out.width * out.height * 4 := by
  match images, hne with
  | [img], _ =>
    simp only [stitchWithOverlaps, Except.ok.injEq] at hok
    refine ⟨?_, ?_, ?_⟩
    · rw [← hok]
      rfl
    · rw [← hok]
      simp
    · rw [← hok]
      exact hwf img (by simp)
  | img0 :: img1 :: rest, _ =>
    have hnn : ∀ p ∈ (img1 :: rest).zip overlaps,
        (0 : ℤ) ≤ (p.1.height : ℤ) - (p.2 : ℤ) := by
      intro p hp
      have := hov p (by simpa using hp)
      omega
    have hS : (0 : ℤ) ≤ ((img1 :: rest).zip overlaps).foldl
        (fun acc p => acc + ((p.1.height : ℤ) - (p.2 : ℤ))) 0 :=
      foldl_add_nonneg _ _ hnn
    have hH : ((img1 :: rest).zip overlaps).foldl
        (fun acc p => acc + ((p.1.height : ℤ) - (p.2 : ℤ))) (img0.height : ℤ) =
        (img0.height : ℤ) + ((img1 :: rest).zip overlaps).foldl
          (fun acc p => acc + ((p.1.height : ℤ) - (p.2 : ℤ))) 0 :=
      foldl_add_shift _ _ _
    simp only [stitchWithOverlaps] at hok
    split_ifs at hok with hneg
    rcases hres : stitchLoop img0.width ((img1 :: rest).zip overlaps) (img0.height : ℤ)
        (bufCopy img0.data
          (List.replicate ((img0.width : ℤ) *
            (((img1 :: rest).zip overlaps).foldl
              (fun acc p => acc + ((p.1.height : ℤ) - (p.2 : ℤ)))
              (img0.height : ℤ)) * 4).toNat 0)
          0 0 img0.data.length) with e | yOut
    · rw [hres] at hok
      exact Except.noConfusion hok
    · rw [hres] at hok
      simp only [Except.ok.injEq] at hok
      subst hok
      have hHnn : (0 : ℤ) ≤ ((img1 :: rest).zip overlaps).foldl
          (fun acc p => acc + ((p.1.height : ℤ) - (p.2 : ℤ))) (img0.height : ℤ) := by
        rw [hH]
        positivity
      refine ⟨rfl, ?_, ?_⟩
      · show ((((img1 :: rest).zip overlaps).foldl
            (fun acc p => acc + ((p.1.height : ℤ) - (p.2 : ℤ)))
            (img0.height : ℤ)).toNat : ℤ) = _
        rw [Int.toNat_of_nonneg hHnn, hH]
        rfl
      · have hlen2 := stitchLoop_length img0.width _ _ _ _ hres
        rw [bufCopy_length, List.length_replicate] at hlen2
        show yOut.2.length = img0.width * ((((img1 :: rest).zip overlaps).foldl
            (fun acc p => acc + ((p.1.height : ℤ) - (p.2 : ℤ)))
            (img0.height : ℤ)).toNat) * 4
        rw [hlen2]
        obtain ⟨n, hn⟩ := Int.eq_ofNat_of_zero_le hHnn
        rw [hn]
        have hc : ((img0.width : ℤ) * (n : ℤ) * 4) = ((img0.width * n * 4 : ℕ) : ℤ) := by
          push_cast
          ring
        rw [hc, Int.toNat_natCast, Int.toNat_natCast]

/-- C2 witness at the concrete pair `frameA`, `frameB` with overlap 1. -/
theorem C2_witness :
    ([frameA, frameB] ≠ [] ∧
     [1].length = [frameA, frameB].length - 1 ∧
     stitchWithOverlaps [frameA, frameB] [1] = .ok stitchedAB) ∧
    stitchedAB.width = ([frameA, frameB].head (by simp)).width ∧
    stitchedAB.data.length = stitchedAB.width * stitchedAB.height * 4 := by
  have h := C2_stitched_dimensions [frameA, frameB] [1] stitchedAB (by simp) (by decide)
    (by decide) (by decide) rfl
  exact ⟨⟨by simp, by decide, rfl⟩, h.1, h.2.2⟩

/-- An empty candidate range yields no loop iterations. -/
lemma candidates_of_empty_range {minO maxO : ℚ} (h : maxO < minO) :
    candidates minO maxO = [] := by
  unfold candidates candidateCount
  rw [if_neg (not_le.mpr h)]
  rfl

/-- A fold whose step either keeps the accumulator's first component or
replaces it by the list element ends at the seed or at some element. -/
lemma foldl_choice {β : Type} (step : (ℚ × β) → ℚ → (ℚ × β))
    (hstep : ∀ b o, (step b o).1 = b.1 ∨ (step b o).1 = o) :
    ∀ (l : List ℚ) (b : ℚ × β),
      (l.foldl step b).1 = b.1 ∨ (l.foldl step b).1 ∈ l := by
  intro l
  induction l with
  | nil => intro b; exact Or.inl rfl
  | cons o l ih =>
    intro b
    rw [List.foldl_cons]
    rcases ih (step b o) with h | h
    · rcases hstep b o with h2 | h2
      · exact Or.inl (h.trans h2)
      · exact Or.inr (by rw [h, h2]; simp)
    · exact Or.inr (by simp [h])

/-- The selection loop of `findBestOverlap` only ever installs a
candidate or keeps the hint. -/
lemma findBestOverlap_result_mem (sqrtF : ℚ → ℚ) (img1 img2 : ImageBuffer)
    (hint : ℚ) :
    findBestOverlap sqrtF img1 img2 hint = hint ∨
      findBestOverlap sqrtF img1 img2 hint ∈
        candidates (minOverlapQ hint)
          (maxSearchOverlapQ img1.height img2.height hint) := by
  unfold findBestOverlap
  refine foldl_choice _ ?_ _ _
  intro b o
  dsimp only
  split_ifs <;> simp

/-- C3 (amended): the resolver returns either the hint or a candidate of
the stepped range `[max(20, hint/3), min(hint*3, min(h1,h2)/2)]`; when
that range is empty it returns the hint unmodified — not clamped — so the
result can exceed both frames' heights. -/
theorem C3_amended_search_range_and_fallback (sqrtF : ℚ → ℚ)
    (img1 img2 : ImageBuffer) (hint : ℚ) :
    (findBestOverlap sqrtF img1 img2 hint = hint ∨
      findBestOverlap sqrtF img1 img2 hint ∈
        candidates (minOverlapQ hint)
          (maxSearchOverlapQ img1.height img2.height hint)) ∧
    (maxSearchOverlapQ img1.height img2.height hint < minOverlapQ hint →
      findBestOverlap sqrtF img1 img2 hint = hint) := by
  refine ⟨findBestOverlap_result_mem sqrtF img1 img2 hint, fun hempty => ?_⟩
  unfold findBestOverlap
  rw [candidates_of_empty_range hempty]
  rfl

/-- Two 1×30 frames with hint 50: the candidate range `[20, 15]` is
empty. -/
lemma frame30_empty_range :
    maxSearchOverlapQ frame30.height frame30.height 50 < minOverlapQ 50 := by
  show min (50 * 3 : ℚ) (min ((30 : ℕ) : ℚ) ((30 : ℕ) : ℚ) / 2) < max 20 (50 / 3)
  norm_num [min_def, max_def]

/-- C3 witness: two 1×30 frames with the default hint 50 give the empty
range `[20, 15]`, and the resolver returns the hint 50. -/
theorem C3_witness :
    maxSearchOverlapQ frame30.height frame30.height 50 < minOverlapQ 50 ∧
    findBestOverlap sqrtZero frame30 frame30 50 = 50 :=
  ⟨frame30_empty_range,
    (C3_amended_search_range_and_fallback sqrtZero frame30 frame30 50).2
      frame30_empty_range⟩

/-- C3 counterexample: for two frames of height 30 and hint 50 the
candidate range is empty and the resolver returns 50 — strictly larger
than both frames' heights, contradicting the claimed clamping. -/
theorem C3_counterexample :
    findBestOverlap sqrtZero frame30 frame30 50 = 50 ∧
    ¬(findBestOverlap sqrtZero frame30 frame30 50 ≤
        ((min frame30.height frame30.height : ℕ) : ℚ)) := by
  have hval : findBestOverlap sqrtZero frame30 frame30 50 = 50 := by
    unfold findBestOverlap
    rw [candidates_of_empty_range frame30_empty_range]
    rfl
  refine ⟨hval, ?_⟩
  rw [hval]
  show ¬((50 : ℚ) ≤ ((min (30 : ℕ) 30 : ℕ) : ℚ))
  norm_num

/-- With hint 50, the lower candidate bound is 20. -/
lemma minOverlapQ_50 : minOverlapQ 50 = 20 := by
  unfold minOverlapQ
  norm_num [max_def]

/-- With two frames of height 40 and hint 50, the upper candidate bound
clamps to 20. -/
lemma maxSearchOverlapQ_40_40_50 : maxSearchOverlapQ 40 40 50 = 20 := by
  unfold maxSearchOverlapQ
  norm_num [min_def]

/-- The boundary scenario's candidate list is exactly `[20]`. -/
lemma candidates_40_50 :
    candidates (minOverlapQ 50) (maxSearchOverlapQ 40 40 50) = [20] := by
  rw [minOverlapQ_50, maxSearchOverlapQ_40_40_50]
  unfold candidates candidateCount
  rw [if_pos le_rfl]
  norm_num [List.range_succ]

/-- The sampled band rows of candidate 20 are 4 … 15. -/
lemma sampleYs_20 : sampleYs 20 = (List.range 12).map (fun k => 4 + k) := by
  unfold sampleYs
  have h4 : (20 : ℚ) * (4 / 5) = 16 := by norm_num
  have h1 : (20 : ℚ) * (1 / 5) = 4 := by norm_num
  rw [h4, h1]
  norm_num
  decide

/-- Membership in the three channel bytes of a pixel. -/
lemma mem_chan3 {q idx : ℚ} (h : q ∈ chan3 idx) :
    ∃ j : ℕ, j ≤ 2 ∧ q = idx + (j : ℚ) := by
  simp only [chan3, List.mem_cons, List.mem_singleton, List.not_mem_nil, or_false] at h
  rcases h with h | h | h
  · exact ⟨0, by omega, by simpa using h⟩
  · exact ⟨1, by omega, by simpa using h⟩
  · exact ⟨2, by omega, by simpa using h⟩

/-- Prior-frame reads at candidate 20 with frame height 40: the byte
index is the integral value `((20+y)w + x)*4 + j`, within a
`w*40*4`-byte buffer. -/
lemma idx1_bound (w y k j : ℕ) (hy : 4 ≤ y) (hy2 : y ≤ 15)
    (hk : 5 * k + 1 ≤ w) (hj : j ≤ 2) :
    (idx1Q 40 w 20 y (5 * k) + (j : ℚ)).den = 1 ∧
    0 ≤ (idx1Q 40 w 20 y (5 * k) + (j : ℚ)).num ∧
    (idx1Q 40 w 20 y (5 * k) + (j : ℚ)).num < ((w * 40 * 4 : ℕ) : ℤ) := by
  have hval : idx1Q 40 w 20 y (5 * k) + (j : ℚ) =
      ((((20 + y) * w + 5 * k) * 4 + j : ℕ) : ℚ) := by
    unfold idx1Q
    push_cast
    ring
  rw [hval, Rat.den_natCast, Rat.num_natCast]
  refine ⟨rfl, Int.natCast_nonneg _, ?_⟩
  rw [Int.ofNat_lt]
  have hA : (20 + y) * w ≤ 35 * w := Nat.mul_le_mul_right w (by omega)
  set A := (20 + y) * w with hAdef
  omega

/-- Next-frame reads at candidate 20: the byte index is the integral
value `(y*w + x)*4 + j`, within a `w*40*4`-byte buffer. -/
lemma idx2_bound (w y k j : ℕ) (hy2 : y ≤ 15)
    (hk : 5 * k + 1 ≤ w) (hj : j ≤ 2) :
    (idx2Q w y (5 * k) + (j : ℚ)).den = 1 ∧
    0 ≤ (idx2Q w y (5 * k) + (j : ℚ)).num ∧
    (idx2Q w y (5 * k) + (j : ℚ)).num < ((w * 40 * 4 : ℕ) : ℤ) := by
  have hval : idx2Q w y (5 * k) + (j : ℚ) =
      (((y * w + 5 * k) * 4 + j : ℕ) : ℚ) := by
    unfold idx2Q
    push_cast
    ring
  rw [hval, Rat.den_natCast, Rat.num_natCast]
  refine ⟨rfl, Int.natCast_nonneg _, ?_⟩
  rw [Int.ofNat_lt]
  have hA : y * w ≤ 15 * w := Nat.mul_le_mul_right w hy2
  set A := y * w with hAdef
  omega

/-- C8: with two frames of height 40 and hint 50, the candidate range
clamps to the single candidate 20 — non-empty and at most both frame
heights — and every byte index read while scoring is an integral index
inside both frames' buffers. -/
theorem C8_no_out_of_bounds_reads (w : ℕ) (img1 img2 : ImageBuffer)
    (h1w : img1.width = w) (h1h : img1.height = 40) (h2h : img2.height = 40)
    (h1d : img1.data.length = w * 40 * 4) (h2d : img2.data.length = w * 40 * 4) :
    candidates (minOverlapQ 50) (maxSearchOverlapQ img1.height img2.height 50) =
      [20] ∧
    (∀ o ∈ candidates (minOverlapQ 50)
        (maxSearchOverlapQ img1.height img2.height 50),
      (0 : ℚ) < o ∧ o ≤ (img1.height : ℚ) ∧ o ≤ (img2.height : ℚ)) ∧
    (∀ idx ∈ searchReads1 img1 img2 50,
      idx.den = 1 ∧ 0 ≤ idx.num ∧ idx.num < (img1.data.length : ℤ)) ∧
    (∀ idx ∈ searchReads2 img1 img2 50,
      idx.den = 1 ∧ 0 ≤ idx.num ∧ idx.num < (img2.data.length : ℤ)) := by
  have hcand : candidates (minOverlapQ 50)
      (maxSearchOverlapQ img1.height img2.height 50) = [20] := by
    rw [h1h, h2h]
    exact candidates_40_50
  refine ⟨hcand, ?_, ?_, ?_⟩
  · intro o ho
    rw [hcand] at ho
    simp only [List.mem_singleton] at ho
    subst ho
    rw [h1h, h2h]
    norm_num
  · intro idx hidx
    unfold searchReads1 at hidx
    rw [h1h, h2h, h1w, candidates_40_50] at hidx
    simp only [List.mem_flatMap, List.mem_filter, List.mem_singleton] at hidx
    obtain ⟨o, ⟨ho, _⟩, hread⟩ := hidx
    subst ho
    unfold candReads1 at hread
    rw [sampleYs_20] at hread
    simp only [List.mem_flatMap, List.mem_map, List.mem_range, sampleXs] at hread
    obtain ⟨y, ⟨a, ha, rfl⟩, x, ⟨k, hk, rfl⟩, hc⟩ := hread
    obtain ⟨j, hj, rfl⟩ := mem_chan3 hc
    rw [h1d]
    exact idx1_bound w (4 + a) k j (by omega) (by omega) (by omega) hj
  · intro idx hidx
    unfold searchReads2 at hidx
    rw [h1h, h2h, h1w, candidates_40_50] at hidx
    simp only [List.mem_flatMap, List.mem_filter, List.mem_singleton] at hidx
    obtain ⟨o, ⟨ho, _⟩, hread⟩ := hidx
    subst ho
    unfold candReads2 at hread
    rw [sampleYs_20] at hread
    simp only [List.mem_flatMap, List.mem_map, List.mem_range, sampleXs] at hread
    obtain ⟨y, ⟨a, ha, rfl⟩, x, ⟨k, hk, rfl⟩, hc⟩ := hread
    obtain ⟨j, hj, rfl⟩ := mem_chan3 hc
    rw [h2d]
    exact idx2_bound w (4 + a) k j (by omega) (by omega) hj

/-- C8 witness at two concrete 1×40 frames. -/
theorem C8_witness :
    (frame40.width = 1 ∧ frame40.height = 40 ∧
      frame40.data.length = 1 * 40 * 4) ∧
    candidates (minOverlapQ 50)
      (maxSearchOverlapQ frame40.height frame40.height 50) = [20] ∧
    (∀ idx ∈ searchReads1 frame40 frame40 50,
      idx.den = 1 ∧ 0 ≤ idx.num ∧ idx.num < (frame40.data.length : ℤ)) ∧
    (∀ idx ∈ searchReads2 frame40 frame40 50,
      idx.den = 1 ∧ 0 ≤ idx.num ∧ idx.num < (frame40.data.length : ℤ)) := by
  have h := C8_no_out_of_bounds_reads 1 frame40 frame40 rfl rfl rfl
    (by simp [frame40]) (by simp [frame40])
  exact ⟨⟨rfl, rfl, by simp [frame40]⟩, h.1, h.2.2.1, h.2.2.2⟩

end ScreenshotMCP

